import Mathlib

/-!
# termkit: escape-sequence builders, text centering and raw-mode reads

A shallow embedding of `src/termkit.cpp`.

* `std::string` is modelled as the list of its characters (`Str`).
* `unsigned` values are natural numbers; where the C++ arithmetic can leave
  the 32-bit range the reduction modulo `2 ^ 32` is written out.
* The terminal size returned by `get_term_size` and the terminal driver
  attributes touched by `getch` are explicit arguments.
-/

namespace termkit

/-! ## Strings -/

/-- Model of `std::string`: the sequence of its characters. -/
abbrev Str := List Char

/-- Model of `std::to_string` on an unsigned value: the decimal rendering. -/
def to_string (n : Nat) : Str := Nat.toDigits 10 n

/-- The loop `for (i = 0; i < n; i++) result += " ";` started with `n`
iterations left. -/
def pad_loop : Nat → Str → Str
  | 0, result => result
  | n + 1, result => pad_loop n (result ++ " ".toList)

/-- The number of decimal digits of `n` (one digit for zero). -/
def digits (n : Nat) : Nat :=
  if n < 10 then 1 else digits (n / 10) + 1
decreasing_by omega

/-! ## Colour wrappers (`termkit.cpp`, lines 37-79) -/

/-- The constant `DEFAULT_TERM_STYLE`. -/
def DEFAULT_TERM_STYLE : Str := "\x1b[0m".toList

/-- The function `rgb_impl`. -/
def rgb_impl (text : Str) (r g b : Nat) (color_background do_pad : Bool) : Str :=
  let result : Str := []
  let red := to_string r
  let green := to_string g
  let blue := to_string b
  let result :=
    if do_pad then
      pad_loop (12 + 3 + red.length + green.length + blue.length) result
    else result
  let result := result ++ ("\x1b[".toList ++ to_string (3 + color_background.toNat)
    ++ "8;2;".toList ++ red ++ ";".toList ++ green ++ ";".toList ++ blue ++ "m".toList)
  let result := result ++ text
  let result := result ++ ("\x1b[".toList ++ to_string (3 + color_background.toNat)
    ++ "9m".toList)
  result

/-- The function `rgb_fg`. -/
def rgb_fg (text : Str) (r g b : Nat) (add_padding : Bool) : Str :=
  rgb_impl text r g b false add_padding

/-- The function `rgb_bg`. -/
def rgb_bg (text : Str) (r g b : Nat) (add_padding : Bool) : Str :=
  rgb_impl text r g b true add_padding

/-- The foreground introducer `ESC[38;2;<r>;<g>;<b>m`, channels in decimal. -/
def fg_introducer (r g b : Nat) : Str :=
  "\x1b[38;2;".toList ++ to_string r ++ ";".toList ++ to_string g ++ ";".toList
    ++ to_string b ++ "m".toList

/-- The background introducer `ESC[48;2;<r>;<g>;<b>m`, channels in decimal. -/
def bg_introducer (r g b : Nat) : Str :=
  "\x1b[48;2;".toList ++ to_string r ++ ";".toList ++ to_string g ++ ";".toList
    ++ to_string b ++ "m".toList

/-- The foreground closer `ESC[39m`. -/
def fg_closer : Str := "\x1b[39m".toList

/-- The background closer `ESC[49m`. -/
def bg_closer : Str := "\x1b[49m".toList

/-! ## Text styles (`termkit.cpp`, lines 96-110) -/

/-- The function `bold_text`. -/
def bold_text (text : Str) (add_padding : Bool) : Str :=
  let result : Str := []
  let result := if add_padding then result ++ "               ".toList else result
  let result := result ++ ("\x1b[1m".toList ++ text ++ "\x1b[22m".toList)
  result

/-- The function `underline_text`. -/
def underline_text (text : Str) : Str :=
  "\x1b[4m".toList ++ text ++ "\x1b[24m".toList

/-! ## Centering (`termkit.cpp`, lines 184-251)

`get_term_size` reads the size from the terminal; the value it returns is the
argument `console_size` of the functions below. -/

/-- The class `Term_size` of `termkit.hpp`. -/
structure Term_size where
  width : Nat
  height : Nat
  deriving DecidableEq, Repr

/-- The function `center_line`. `line.length() / 2` is a `size_t` stored in an
`unsigned`, and the subtraction is an `unsigned` subtraction. -/
def center_line (console_size : Term_size) (line : Str) (visual_width : Nat) : Str :=
  let result : Str := []
  let console_middle_point := console_size.width / 2
  let text_middle_point :=
    if visual_width ≠ 0 then visual_width / 2 else (line.length / 2) % 2 ^ 32
  let center_point := (console_middle_point + 2 ^ 32 - text_middle_point) % 2 ^ 32
  let result := pad_loop center_point result
  let result := result ++ line
  result

/-- The body of the range-based `for` of `center_text`, run over the characters
that are left; the state is `(result, constructed_line)`. -/
def center_text_loop (console_size : Term_size) (visual_width : Nat) :
    Str → Str × Str → Str × Str
  | [], state => state
  | character :: rest, (result, constructed_line) =>
    if character = '\n' then
      center_text_loop console_size visual_width rest
        (result ++ ('\n' :: center_line console_size constructed_line visual_width), [])
    else
      center_text_loop console_size visual_width rest
        (result, constructed_line ++ [character])

/-- The function `center_text`. -/
def center_text (console_size : Term_size) (text : Str) (visual_width : Nat) : Str :=
  (center_text_loop console_size visual_width text ([], [])).1

/-- Model of `std::string::find(char)`: the index of the first occurrence, and
`none` for `std::string::npos`. -/
def find : Str → Char → Option Nat
  | [], _ => none
  | c :: rest, ch => if c = ch then some 0 else (find rest ch).map (· + 1)

/-- Model of `std::string::substr(pos, count)` for `pos` within the string;
the count `none` is `std::string::npos`, which exceeds every string length. -/
def substr (s : Str) (pos : Nat) (count : Option Nat) : Str :=
  match count with
  | none => s.drop pos
  | some n => (s.drop pos).take n

/-- The body of the range-based `for` of `center_text_block`, run over the
characters that are left; the state is `(result, constructed_line)`. -/
def center_text_block_loop (center_point : Nat) : Str → Str × Str → Str × Str
  | [], state => state
  | character :: rest, (result, constructed_line) =>
    if character = '\n' then
      center_text_block_loop center_point rest
        (result ++ ('\n' :: (List.replicate center_point ' ' ++ constructed_line)), [])
    else
      center_text_block_loop center_point rest (result, constructed_line ++ [character])

/-- The function `center_text_block`. -/
def center_text_block (console_size : Term_size) (text : Str) (visual_width : Nat) : Str :=
  let console_middle_point := console_size.width / 2
  let text_middle_point :=
    if visual_width ≠ 0 then visual_width / 2
    else ((substr text 0 (find text '\n')).length / 2) % 2 ^ 32
  let center_point := (console_middle_point + 2 ^ 32 - text_middle_point) % 2 ^ 32
  (center_text_block_loop center_point text ([], [])).1

/-- The effective width of `center_line`: the visual width when it is nonzero,
the character count of the line otherwise. -/
def effectiveWidth (line : Str) (visual_width : Nat) : Nat :=
  if visual_width ≠ 0 then visual_width else line.length

/-- The text made of the given lines, each followed by a line break, and then
of a last piece that no line break follows. -/
def join_lines (lines : List Str) (rest : Str) : Str :=
  (lines.map (· ++ ['\n'])).flatten ++ rest

/-- The first line of a text: the text up to its first line break, or the
whole text when it has none. -/
def first_line (text : Str) : Str := text.takeWhile (· ≠ '\n')

/-! ## Raw-mode read and interrupt handler (`termkit.cpp`, lines 129-145, 253-257)

The terminal driver of standard input is explicit state: the attribute record
that is in force. `tcgetattr` reads it, `tcsetattr` replaces it. -/

/-- The attribute record `struct termios`: the four flag words and the control
characters. -/
structure Termios where
  c_iflag : Nat
  c_oflag : Nat
  c_cflag : Nat
  c_lflag : Nat
  c_cc : List Nat
  deriving DecidableEq, Repr

/-- What the call `read(STDIN_FILENO, &result, 1)` does: it stores one byte, or
it returns 0 at end of input, or it fails (for instance with `EINTR`); in the
last two cases nothing is stored. -/
inductive ReadOutcome where
  | byte (c : Nat)
  | eof
  | failed (errno : Nat)
  deriving DecidableEq, Repr

/-- The platform call `tcgetattr(STDIN_FILENO, &t)`: the value stored in `t`. -/
def tcgetattr (tty : Termios) : Termios := tty

/-- The platform call `tcsetattr(STDIN_FILENO, 0, &t)`: the attributes in force
afterwards. -/
def tcsetattr (_tty : Termios) (t : Termios) : Termios := t

/-- The value of `result` after `read(STDIN_FILENO, &result, 1)`. -/
def read (outcome : ReadOutcome) (result : Nat) : Nat :=
  match outcome with
  | .byte c => c
  | .eof => result
  | .failed _ => result

/-- The locals of `getch`; they are not initialised, so their first values are
arbitrary. -/
structure Locals where
  original_termios : Termios
  raw_termios : Termios
  result : Nat
  deriving DecidableEq, Repr

/-- The function `getch` (unix branch). The arguments are the library routine
`cfmakeraw`, the first values of the locals, what the read does, and the
attributes in force at the call; the value is the returned character and the
attributes in force at the return. -/
def getch (cfmakeraw : Termios → Termios) (locals : Locals) (outcome : ReadOutcome)
    (tty : Termios) : Nat × Termios :=
  let original_termios := tcgetattr tty
  let raw_termios := cfmakeraw locals.raw_termios
  let tty := tcsetattr tty raw_termios
  let result := read outcome locals.result
  let tty := tcsetattr tty original_termios
  (result, tty)

/-- The statement of `getch` that runs next, or how the process has ended. -/
inductive Pc where
  | at_tcgetattr
  | at_cfmakeraw
  | at_set_raw
  | at_read
  | at_restore
  | at_return
  | returned
  | exited (status : Int)
  deriving DecidableEq, Repr

/-- A process inside `getch`: the program point, the attributes in force in the
terminal driver, the locals, and what has been written to standard output. -/
structure Proc where
  pc : Pc
  tty : Termios
  locals : Locals
  stdout : Str
  deriving DecidableEq, Repr

/-- The process at the call of `getch`. -/
def Proc.init (locals : Locals) (tty : Termios) : Proc :=
  { pc := .at_tcgetattr, tty := tty, locals := locals, stdout := [] }

/-- One statement of `getch`. -/
def Proc.step (cfmakeraw : Termios → Termios) (outcome : ReadOutcome) (p : Proc) : Proc :=
  match p.pc with
  | .at_tcgetattr =>
    { p with pc := .at_cfmakeraw,
             locals := { p.locals with original_termios := tcgetattr p.tty } }
  | .at_cfmakeraw =>
    { p with pc := .at_set_raw,
             locals := { p.locals with raw_termios := cfmakeraw p.locals.raw_termios } }
  | .at_set_raw => { p with pc := .at_read, tty := tcsetattr p.tty p.locals.raw_termios }
  | .at_read =>
    { p with pc := .at_restore,
             locals := { p.locals with result := read outcome p.locals.result } }
  | .at_restore =>
    { p with pc := .at_return, tty := tcsetattr p.tty p.locals.original_termios }
  | .at_return => { p with pc := .returned }
  | .returned => p
  | .exited _ => p

/-- The function `reset_terminal_and_exit`, run by a process: it writes the
default style, the switch to the normal screen buffer and `std::endl`, and
exits with status 0. -/
def reset_terminal_and_exit (_signal_id : Int) (p : Proc) : Proc :=
  { p with stdout := p.stdout ++ DEFAULT_TERM_STYLE ++ "\x1b[?47l".toList ++ ['\n'],
           pc := .exited 0 }

/-- The signal number `SIGINT`. -/
def SIGINT : Int := 2

/-- Delivery of the interrupt to a process that has not ended: the handler
`reset_terminal_and_exit` runs. -/
def Proc.interrupt (p : Proc) : Proc :=
  match p.pc with
  | .returned => p
  | .exited _ => p
  | _ => reset_terminal_and_exit SIGINT p

/-- A run of `getch` under a schedule: before each statement the entry of the
schedule says whether the interrupt is delivered (`true`) or the statement
runs (`false`). -/
def Proc.run (cfmakeraw : Termios → Termios) (outcome : ReadOutcome) :
    List Bool → Proc → Proc
  | [], p => p
  | true :: schedule, p => Proc.run cfmakeraw outcome schedule p.interrupt
  | false :: schedule, p => Proc.run cfmakeraw outcome schedule (p.step cfmakeraw outcome)

/-- The process has ended: `getch` has returned or the process has exited. -/
def Proc.terminated (p : Proc) : Bool :=
  match p.pc with
  | .returned => true
  | .exited _ => true
  | _ => false

/-- The number of statements of `getch` a schedule runs before it delivers the
interrupt. -/
def statements_before_interrupt (schedule : List Bool) : Nat :=
  (schedule.takeWhile (· = false)).length

/-- The library routine `cfmakeraw` as documented in termios(3), with the flag
values of Linux: it clears the input, output, local and control flags of
cooked mode, selects 8-bit characters, and sets `VMIN` to 1 and `VTIME` to 0. -/
def cfmakeraw_linux (t : Termios) : Termios :=
  { c_iflag := t.c_iflag - (t.c_iflag &&& 0o2753),
    c_oflag := t.c_oflag - (t.c_oflag &&& 0o1),
    c_lflag := t.c_lflag - (t.c_lflag &&& 0o100113),
    c_cflag := (t.c_cflag - (t.c_cflag &&& 0o460)) ||| 0o60,
    c_cc := (t.c_cc.set 6 1).set 5 0 }

/-- The attributes of a terminal in cooked mode as `stty sane` leaves them on
Linux. -/
def cooked : Termios :=
  { c_iflag := 0o2400, c_oflag := 0o5, c_cflag := 0o277, c_lflag := 0o105073,
    c_cc := [3, 28, 127, 21, 4, 0, 1, 0, 17, 19, 26, 0, 18, 15, 23, 22]
      ++ List.replicate 16 0 }

/-- Locals of `getch` whose memory happens to be filled with zeros. -/
def zeroed_locals : Locals :=
  { original_termios := Termios.mk 0 0 0 0 (List.replicate 32 0),
    raw_termios := Termios.mk 0 0 0 0 (List.replicate 32 0),
    result := 0 }

/-! ## Cursor control (`termkit.cpp`, lines 81-87, 116-119)

The functions below write to standard output; their value here is the
sequence of bytes they write. -/

/-- The `printf` conversion `%i` applied to an `unsigned` argument: the 32 bits
of the argument are read as a signed `int` and printed in decimal. -/
def printf_i (x : Nat) : Str :=
  if x % 2 ^ 32 < 2 ^ 31 then to_string (x % 2 ^ 32)
  else '-' :: to_string (2 ^ 32 - x % 2 ^ 32)

/-- The function `move_cursor_up`: `printf("\x1b[%iA", shift)`. -/
def move_cursor_up (shift : Nat) : Str :=
  "\x1b[".toList ++ printf_i shift ++ "A".toList

/-- The function `move_cursor_left`: `printf("\x1b[%iD", shift)`. -/
def move_cursor_left (shift : Nat) : Str :=
  "\x1b[".toList ++ printf_i shift ++ "D".toList

/-- The function `move_cursor_right`: `printf("\x1b[%iC", shift)`. -/
def move_cursor_right (shift : Nat) : Str :=
  "\x1b[".toList ++ printf_i shift ++ "C".toList

/-- The function `move_cursor_down`: `printf("\x1b[%iB", shift)`. -/
def move_cursor_down (shift : Nat) : Str :=
  "\x1b[".toList ++ printf_i shift ++ "B".toList

/-- The function `set_cursor_pos`: `printf("\x1b[%i;%if\n", line, column)`. -/
def set_cursor_pos (line column : Nat) : Str :=
  "\x1b[".toList ++ printf_i line ++ ";".toList ++ printf_i column ++ "f\n".toList

/-! ## Terminal geometry (`termkit.cpp`, lines 155-163) -/

/-- The record `struct winsize` filled by the size query. -/
structure Winsize where
  ws_row : Nat
  ws_col : Nat
  ws_xpixel : Nat
  ws_ypixel : Nat
  deriving DecidableEq, Repr

/-- What the call `ioctl(STDOUT_FILENO, TIOCGWINSZ, &size)` does: it fills the
record, or it fails with an error number (`ENOTTY` when standard output is not
a terminal) and stores nothing. -/
inductive IoctlOutcome where
  | filled (size : Winsize)
  | failed (errno : Nat)
  deriving DecidableEq, Repr

/-- The error number `ENOTTY`. -/
def ENOTTY : Nat := 25

/-- The value of `size` after `ioctl(STDOUT_FILENO, TIOCGWINSZ, &size)`. -/
def ioctl_TIOCGWINSZ (outcome : IoctlOutcome) (size : Winsize) : Winsize :=
  match outcome with
  | .filled s => s
  | .failed _ => size

/-- The value of `errno` after `ioctl(STDOUT_FILENO, TIOCGWINSZ, &size)`: a
failed call stores its error number, a successful call leaves `errno` as it
was. -/
def ioctl_errno (outcome : IoctlOutcome) (errno : Nat) : Nat :=
  match outcome with
  | .filled _ => errno
  | .failed e => e

/-- The function `get_term_size` (unix branch). The arguments are what the size
query does, the first value of the local `size`, which is not initialised, and
the value of `errno` at the call; the value of the `ioctl` call is not looked
at. The result is the returned `Term_size` and the value of `errno` at the
return. -/
def get_term_size (outcome : IoctlOutcome) (size : Winsize) (errno : Nat) :
    Term_size × Nat :=
  let errno := ioctl_errno outcome errno
  let size := ioctl_TIOCGWINSZ outcome size
  let result : Term_size := { width := size.ws_col, height := size.ws_row }
  (result, errno)

/-! ## Interrupt registration (`termkit.cpp`, lines 259-267)

The signal dispositions of the process are explicit state: for each signal
number the action registered with `sigaction`. -/

/-- The handler of a signal action: the default action, ignoring the signal,
or the function `reset_terminal_and_exit` of this library. -/
inductive SigHandler where
  | SIG_DFL
  | SIG_IGN
  | fn_reset_terminal_and_exit
  deriving DecidableEq, Repr

/-- The fields of `struct sigaction` that `handle_SIGINT` sets: the handler, the
set of signals blocked while it runs, and the flags. -/
structure Sigaction where
  sa_handler : SigHandler
  sa_mask : List Int
  sa_flags : Int
  deriving DecidableEq, Repr

/-- The signal dispositions of the process. -/
abbrev Dispositions := Int → Sigaction

/-- The set `sigemptyset` stores: no signal. -/
def sigemptyset : List Int := []

/-- The platform call `sigaction(signum, &act, NULL)`: the dispositions
afterwards. -/
def sigaction (signum : Int) (act : Sigaction) (d : Dispositions) : Dispositions :=
  fun s => if s = signum then act else d s

/-- The function `handle_SIGINT` (unix branch). -/
def handle_SIGINT (d : Dispositions) : Dispositions :=
  let sigIntHandler : Sigaction :=
    { sa_handler := .fn_reset_terminal_and_exit, sa_mask := sigemptyset, sa_flags := 0 }
  sigaction SIGINT sigIntHandler d

/-- Delivery of a signal to a process under the given dispositions: the
registered handler function is called once with the signal number; an ignored
signal changes nothing; `none` stands for the default action, by which the
system ends the process without running code of the program. -/
def deliver (d : Dispositions) (signum : Int) (p : Proc) : Option Proc :=
  match (d signum).sa_handler with
  | .SIG_DFL => none
  | .SIG_IGN => some p
  | .fn_reset_terminal_and_exit => some (reset_terminal_and_exit signum p)

/-! ## Lemmas on strings -/

theorem pad_loop_eq (n : Nat) (result : Str) :
    pad_loop n result = result ++ List.replicate n ' ' := by
  induction n generalizing result with
  | zero => simp [pad_loop]
  | succ k ih =>
    rw [pad_loop, ih, List.replicate_succ]
    simp

theorem digits_lt_ten {n : Nat} (h : n < 10) : digits n = 1 := by
  rw [digits, if_pos h]

theorem digits_ge_ten {n : Nat} (h : 10 ≤ n) : digits n = digits (n / 10) + 1 := by
  rw [digits, if_neg (by omega)]

theorem toDigitsCore_length_eq (fuel : Nat) :
    ∀ (n : Nat) (ds : List Char), n < fuel →
      (Nat.toDigitsCore 10 fuel n ds).length = digits n + ds.length := by
  induction fuel with
  | zero => intro n ds h; omega
  | succ f ih =>
    intro n ds h
    simp only [Nat.toDigitsCore]
    by_cases h0 : n / 10 = 0
    · have hn : n < 10 := by omega
      simp [h0, digits_lt_ten hn]
      omega
    · have hn : 10 ≤ n := by omega
      rw [if_neg h0, ih (n / 10) _ (by omega), digits_ge_ten hn]
      simp
      omega

theorem to_string_length (n : Nat) : (to_string n).length = digits n := by
  unfold to_string Nat.toDigits
  rw [toDigitsCore_length_eq (n + 1) n [] (by omega)]
  simp

theorem suffix_same_length_eq {l₁ l₂ l : Str} (h₁ : l₁ <:+ l) (h₂ : l₂ <:+ l)
    (hl : l₁.length = l₂.length) : l₁ = l₂ :=
  (List.suffix_of_suffix_length_le h₁ h₂ (le_of_eq hl)).eq_of_length hl

theorem to_string_three : to_string 3 = ['3'] := by decide

theorem to_string_four : to_string 4 = ['4'] := by decide

theorem rgb_fg_unpadded (text : Str) (r g b : Nat) :
    rgb_fg text r g b false = fg_introducer r g b ++ text ++ fg_closer := by
  simp [rgb_fg, rgb_impl, fg_introducer, fg_closer, to_string_three]

theorem rgb_bg_unpadded (text : Str) (r g b : Nat) :
    rgb_bg text r g b false = bg_introducer r g b ++ text ++ bg_closer := by
  simp [rgb_bg, rgb_impl, bg_introducer, bg_closer, to_string_four]

theorem fg_closer_ne_bg_closer : fg_closer ≠ bg_closer := by decide

theorem rgb_impl_padded (text : Str) (r g b : Nat) (color_background : Bool) :
    rgb_impl text r g b color_background true =
      List.replicate (15 + digits r + digits g + digits b) ' '
        ++ rgb_impl text r g b color_background false := by
  simp only [rgb_impl, if_true, pad_loop_eq, to_string_length, List.nil_append,
    Bool.false_eq_true, if_false, List.append_assoc]

/-! ## The colour wrappers -/

/-- C3: without padding, for all channel values (so in particular for
`r`, `g`, `b` in `[0,255]`) and every text, `rgb_fg` returns the foreground
introducer `ESC[38;2;r;g;bm`, the text unchanged, and the foreground closer
`ESC[39m`; `rgb_bg` returns the background introducer `ESC[48;2;r;g;bm`, the
text and the background closer `ESC[49m`. Each result starts with its
introducer, ends with its closer, and does not end with the closer of the
other role. -/
theorem rgb_wrappers_introducer_and_closer (text : Str) (r g b : Nat) :
    rgb_fg text r g b false = fg_introducer r g b ++ text ++ fg_closer ∧
    rgb_bg text r g b false = bg_introducer r g b ++ text ++ bg_closer ∧
    fg_introducer r g b <+: rgb_fg text r g b false ∧
    fg_closer <:+ rgb_fg text r g b false ∧
    ¬ bg_closer <:+ rgb_fg text r g b false ∧
    bg_introducer r g b <+: rgb_bg text r g b false ∧
    bg_closer <:+ rgb_bg text r g b false ∧
    ¬ fg_closer <:+ rgb_bg text r g b false := by
  have hfg := rgb_fg_unpadded text r g b
  have hbg := rgb_bg_unpadded text r g b
  have sfg : fg_closer <:+ rgb_fg text r g b false := by
    rw [hfg]; exact List.suffix_append _ _
  have sbg : bg_closer <:+ rgb_bg text r g b false := by
    rw [hbg]; exact List.suffix_append _ _
  refine ⟨hfg, hbg, ?_, sfg, ?_, ?_, sbg, ?_⟩
  · rw [hfg, List.append_assoc]; exact List.prefix_append _ _
  · intro h
    exact fg_closer_ne_bg_closer (suffix_same_length_eq sfg h (by decide))
  · rw [hbg, List.append_assoc]; exact List.prefix_append _ _
  · intro h
    exact fg_closer_ne_bg_closer (suffix_same_length_eq h sbg (by decide))

/-- C4: for every text and all channel values, `rgb_fg` and `rgb_bg` with
`add_padding = true` return `n` spaces followed by what they return with
`add_padding = false`, where `n = 15 + digits r + digits g + digits b` is the
character count of the introducer plus the closer; the digit count is 1, 1, 2
and 3 at the boundary values 0, 9, 99 and 255. -/
theorem rgb_padding_is_sequence_length (text : Str) (r g b : Nat) :
    rgb_fg text r g b true =
      List.replicate (15 + digits r + digits g + digits b) ' ' ++ rgb_fg text r g b false ∧
    rgb_bg text r g b true =
      List.replicate (15 + digits r + digits g + digits b) ' ' ++ rgb_bg text r g b false ∧
    (fg_introducer r g b).length + fg_closer.length = 15 + digits r + digits g + digits b ∧
    (bg_introducer r g b).length + bg_closer.length = 15 + digits r + digits g + digits b ∧
    digits 0 = 1 ∧ digits 9 = 1 ∧ digits 99 = 2 ∧ digits 255 = 3 := by
  refine ⟨rgb_impl_padded text r g b false, rgb_impl_padded text r g b true, ?_, ?_,
    ?_, ?_, ?_, ?_⟩
  · simp [fg_introducer, fg_closer, to_string_length]; omega
  · simp [bg_introducer, bg_closer, to_string_length]; omega
  · exact digits_lt_ten (by decide)
  · exact digits_lt_ten (by decide)
  · rw [digits_ge_ten (by decide)]; exact congrArg (· + 1) (digits_lt_ten (by decide))
  · rw [digits_ge_ten (by decide), digits_ge_ten (by decide)]
    exact congrArg (· + 1 + 1) (digits_lt_ten (by decide))

/-! ## Bold text -/

/-- C5: `bold_text "x" true` is 15 spaces followed by `bold_text "x" false`,
while the opening sequence `ESC[1m` and the closing sequence `ESC[22m` have 9
characters together; so the padding is not the 9 spaces of the padding
contract. -/
theorem bold_text_padding_is_fifteen :
    bold_text "x".toList true = List.replicate 15 ' ' ++ bold_text "x".toList false ∧
    "\x1b[1m".toList.length + "\x1b[22m".toList.length = 9 ∧
    bold_text "x".toList true ≠ List.replicate 9 ' ' ++ bold_text "x".toList false := by
  decide

/-! ## Centering -/

theorem center_line_eq (console_size : Term_size) (line : Str) (visual_width : Nat) :
    center_line console_size line visual_width =
      List.replicate
        ((console_size.width / 2 + 2 ^ 32 -
          (if visual_width ≠ 0 then visual_width / 2 else (line.length / 2) % 2 ^ 32))
            % 2 ^ 32) ' ' ++ line := by
  simp only [center_line, pad_loop_eq, List.nil_append]

theorem center_line_no_wrap (console_size : Term_size) (line : Str) (visual_width : Nat)
    (hW : console_size.width < 2 ^ 32)
    (h : effectiveWidth line visual_width / 2 ≤ console_size.width / 2) :
    center_line console_size line visual_width =
      List.replicate (console_size.width / 2 - effectiveWidth line visual_width / 2) ' '
        ++ line := by
  rw [center_line_eq]
  congr 2
  unfold effectiveWidth at *
  split_ifs at * with hv <;> omega

/-- C6: on a terminal of width `W` (an `unsigned`), when
`floor(effectiveWidth/2) <= floor(W/2)`, `center_line line v` is
`floor(W/2) - floor(effectiveWidth/2)` spaces followed by `line`; and
`center_line "x" 0` is `floor(W/2)` spaces followed by `"x"`. -/
theorem center_line_offset (console_size : Term_size) (line : Str) (visual_width : Nat)
    (hW : console_size.width < 2 ^ 32) :
    (effectiveWidth line visual_width / 2 ≤ console_size.width / 2 →
      center_line console_size line visual_width =
        List.replicate (console_size.width / 2 - effectiveWidth line visual_width / 2) ' '
          ++ line) ∧
    center_line console_size "x".toList 0 =
      List.replicate (console_size.width / 2) ' ' ++ "x".toList := by
  refine ⟨center_line_no_wrap console_size line visual_width hW, ?_⟩
  have h := center_line_no_wrap console_size "x".toList 0 hW (by simp [effectiveWidth])
  simpa [effectiveWidth] using h

theorem center_line_offset_witness :
    (80 : Nat) < 2 ^ 32 ∧
    effectiveWidth "hello".toList 0 / 2 ≤ (Term_size.mk 80 24).width / 2 ∧
    center_line (Term_size.mk 80 24) "hello".toList 0 =
      List.replicate 38 ' ' ++ "hello".toList :=
  ⟨by decide, by decide,
    (center_line_offset (Term_size.mk 80 24) "hello".toList 0 (by decide)).1 (by decide)⟩

/-- C7: on a terminal 4 columns wide the 12-character line `"hello world!"`
(effective width 12 > 4) is returned behind `2 ^ 32 - 4 = 4294967292` spaces:
the `unsigned` subtraction `2 - 6` wraps around, the result is not the line
with zero leading spaces. -/
theorem center_line_wraps_around :
    effectiveWidth "hello world!".toList 0 > (Term_size.mk 4 24).width ∧
    center_line (Term_size.mk 4 24) "hello world!".toList 0 =
      List.replicate 4294967292 ' ' ++ "hello world!".toList ∧
    (center_line (Term_size.mk 4 24) "hello world!".toList 0).length = 4294967304 ∧
    center_line (Term_size.mk 4 24) "hello world!".toList 0 ≠ "hello world!".toList := by
  have h : center_line (Term_size.mk 4 24) "hello world!".toList 0 =
      List.replicate 4294967292 ' ' ++ "hello world!".toList := by
    rw [center_line_eq]; rfl
  refine ⟨by decide, h, ?_, ?_⟩
  · rw [h, List.length_append, List.length_replicate]; rfl
  · intro hc
    have hl := congrArg List.length hc
    rw [h, List.length_append, List.length_replicate] at hl
    revert hl
    decide

/-- C8: on a terminal 10 columns wide `center_text "a\nb" 0` is a line break
followed by the centred first line `"     a"`; the last line `"b"`, which no
line break follows, is not in the output. -/
theorem center_text_drops_last_line :
    center_text (Term_size.mk 10 24) "a\nb".toList 0 = "\n     a".toList ∧
    'b' ∈ "a\nb".toList ∧
    'b' ∉ center_text (Term_size.mk 10 24) "a\nb".toList 0 := by
  decide

theorem substr_find_eq_first_line (text : Str) :
    substr text 0 (find text '\n') = first_line text := by
  induction text with
  | nil => rfl
  | cons c t ih =>
    by_cases hc : c = '\n'
    · simp [find, substr, first_line, hc]
    · cases hf : find t '\n' with
      | none =>
        rw [hf] at ih
        simp only [substr, first_line, List.drop_zero] at ih
        simp only [find, substr, first_line, hc, hf, if_false, Option.map_none',
          List.drop_zero]
        rw [List.takeWhile_cons_of_pos (by simpa using hc), ← ih]
      | some n =>
        rw [hf] at ih
        simp only [substr, first_line, List.drop_zero] at ih
        simp only [find, substr, first_line, hc, hf, if_false, Option.map_some',
          List.drop_zero, List.take_succ_cons]
        rw [List.takeWhile_cons_of_pos (by simpa using hc), ← ih]

theorem center_text_block_loop_segment (center_point : Nat) (l t result : Str)
    (hl : '\n' ∉ l) : ∀ constructed_line : Str,
    center_text_block_loop center_point (l ++ t) (result, constructed_line) =
      center_text_block_loop center_point t (result, constructed_line ++ l) := by
  induction l with
  | nil => intro cl; simp
  | cons c l ih =>
    intro cl
    have hc : c ≠ '\n' := fun h => hl (by simp [h])
    have hl2 : '\n' ∉ l := fun h => hl (by simp [h])
    simp [center_text_block_loop, hc, ih hl2]

theorem center_text_block_loop_lines (center_point : Nat) (lines : List Str) (rest : Str)
    (hlines : ∀ l ∈ lines, '\n' ∉ l) (hrest : '\n' ∉ rest) : ∀ result : Str,
    center_text_block_loop center_point (join_lines lines rest) (result, []) =
      (result ++ (lines.map
        (fun l => '\n' :: (List.replicate center_point ' ' ++ l))).flatten, rest) := by
  induction lines with
  | nil =>
    intro result
    have h := center_text_block_loop_segment center_point rest [] result hrest []
    simpa [join_lines, center_text_block_loop] using h
  | cons l ls ih =>
    intro result
    have hl : '\n' ∉ l := hlines l (by simp)
    have hls : ∀ x ∈ ls, '\n' ∉ x := fun x hx => hlines x (by simp [hx])
    have hseg := center_text_block_loop_segment center_point l
      ('\n' :: join_lines ls rest) result hl []
    have hjoin : join_lines (l :: ls) rest = l ++ ('\n' :: join_lines ls rest) := by
      simp [join_lines]
    rw [hjoin, hseg]
    simp [center_text_block_loop, ih hls]

theorem join_lines_exists (text : Str) :
    ∃ (lines : List Str) (rest : Str), text = join_lines lines rest ∧
      (∀ l ∈ lines, '\n' ∉ l) ∧ '\n' ∉ rest := by
  induction text with
  | nil => exact ⟨[], [], rfl, by simp, by simp⟩
  | cons c t ih =>
    obtain ⟨lines, rest, ht, hlines, hrest⟩ := ih
    by_cases hc : c = '\n'
    · refine ⟨[] :: lines, rest, ?_, ?_, hrest⟩
      · simp [join_lines, hc, ht]
      · intro l hl
        rcases List.mem_cons.mp hl with h | h
        · simp [h]
        · exact hlines l h
    · cases lines with
      | nil =>
        refine ⟨[], c :: rest, ?_, by simp, ?_⟩
        · simp [join_lines, ht]
        · intro h
          rcases List.mem_cons.mp h with h | h
          · exact hc h.symm
          · exact hrest h
      | cons l ls =>
        refine ⟨(c :: l) :: ls, rest, ?_, ?_, hrest⟩
        · simp [join_lines, ht]
        · intro x hx
          rcases List.mem_cons.mp hx with h | h
          · subst h
            intro hm
            rcases List.mem_cons.mp hm with h | h
            · exact hc h.symm
            · exact hlines l (by simp) h
          · exact hlines x (by simp [h])

/-- C9: on a terminal of width `W` (an `unsigned`), every text is a sequence
of lines, each followed by a line break, and a last piece without line break;
when `floor(len(first line)/2) <= floor(W/2)`, `center_text_block text 0`
emits each of these lines behind a line break and the same number of spaces,
`floor(W/2) - floor(len(first line)/2)`, whatever the lengths of the later
lines. The first line is the text up to its first line break, or the whole
text when it has none. -/
theorem center_text_block_offset_of_first_line (console_size : Term_size) (text : Str)
    (hW : console_size.width < 2 ^ 32)
    (h : (first_line text).length / 2 ≤ console_size.width / 2) :
    (∃ (lines : List Str) (rest : Str), text = join_lines lines rest ∧
      (∀ l ∈ lines, '\n' ∉ l) ∧ '\n' ∉ rest) ∧
    ∀ (lines : List Str) (rest : Str), text = join_lines lines rest →
      (∀ l ∈ lines, '\n' ∉ l) → '\n' ∉ rest →
      center_text_block console_size text 0 =
        (lines.map (fun l => '\n' :: (List.replicate
          (console_size.width / 2 - (first_line text).length / 2) ' ' ++ l))).flatten := by
  refine ⟨join_lines_exists text, ?_⟩
  intro lines rest ht hlines hrest
  have hcp : (console_size.width / 2 + 2 ^ 32 -
      ((substr text 0 (find text '\n')).length / 2) % 2 ^ 32) % 2 ^ 32 =
      console_size.width / 2 - (first_line text).length / 2 := by
    rw [substr_find_eq_first_line]
    omega
  simp only [center_text_block, ne_eq, not_true_eq_false, if_false, hcp]
  rw [ht, center_text_block_loop_lines _ lines rest hlines hrest]
  simp

theorem center_text_block_offset_of_first_line_witness :
    (20 : Nat) < 2 ^ 32 ∧
    (first_line "ab\nlonger line\nx".toList).length / 2 ≤ (Term_size.mk 20 24).width / 2 ∧
    center_text_block (Term_size.mk 20 24) "ab\nlonger line\nx".toList 0 =
      (["ab".toList, "longer line".toList].map (fun l => '\n' :: (List.replicate
        ((Term_size.mk 20 24).width / 2
          - (first_line "ab\nlonger line\nx".toList).length / 2) ' ' ++ l))).flatten :=
  ⟨by decide, by decide,
    (center_text_block_offset_of_first_line (Term_size.mk 20 24)
      "ab\nlonger line\nx".toList (by decide) (by decide)).2
      ["ab".toList, "longer line".toList] "x".toList (by decide) (by decide) (by decide)⟩

/-- C10: on a terminal 20 columns wide and for the text `"a\nbbbbbb\n"`, whose
lines have lengths 1 and 6, `center_text text 0` gives each line the offset of
its own length (10 and 7 spaces) and `center_text_block text 0` gives both
lines the offset of the first line (10 spaces); the two results differ. -/
theorem center_text_and_block_diverge :
    center_text (Term_size.mk 20 24) "a\nbbbbbb\n".toList 0 =
      '\n' :: (List.replicate (20 / 2 - 1 / 2) ' ' ++ "a".toList) ++
      '\n' :: (List.replicate (20 / 2 - 6 / 2) ' ' ++ "bbbbbb".toList) ∧
    center_text_block (Term_size.mk 20 24) "a\nbbbbbb\n".toList 0 =
      '\n' :: (List.replicate (20 / 2 - 1 / 2) ' ' ++ "a".toList) ++
      '\n' :: (List.replicate (20 / 2 - 1 / 2) ' ' ++ "bbbbbb".toList) ∧
    center_text (Term_size.mk 20 24) "a\nbbbbbb\n".toList 0 ≠
      center_text_block (Term_size.mk 20 24) "a\nbbbbbb\n".toList 0 := by
  decide

/-! ## Raw-mode read -/

theorem Proc.run_append (cfmakeraw : Termios → Termios) (outcome : ReadOutcome)
    (s₁ s₂ : List Bool) : ∀ p : Proc,
    Proc.run cfmakeraw outcome (s₁ ++ s₂) p =
      Proc.run cfmakeraw outcome s₂ (Proc.run cfmakeraw outcome s₁ p) := by
  induction s₁ with
  | nil => intro p; rfl
  | cons b s ih => intro p; cases b <;> simp [Proc.run, ih]

theorem Proc.step_terminated (cfmakeraw : Termios → Termios) (outcome : ReadOutcome)
    (p : Proc) (h : p.terminated = true) : p.step cfmakeraw outcome = p := by
  unfold Proc.terminated at h
  unfold Proc.step
  split at h <;> simp_all

theorem Proc.interrupt_terminated (p : Proc) (h : p.terminated = true) :
    p.interrupt = p := by
  unfold Proc.terminated at h
  unfold Proc.interrupt
  split at h <;> simp_all

theorem Proc.run_terminated (cfmakeraw : Termios → Termios) (outcome : ReadOutcome)
    (schedule : List Bool) (p : Proc) (h : p.terminated = true) :
    Proc.run cfmakeraw outcome schedule p = p := by
  induction schedule with
  | nil => rfl
  | cons b s ih =>
    cases b
    · rw [Proc.run, Proc.step_terminated cfmakeraw outcome p h, ih]
    · rw [Proc.run, Proc.interrupt_terminated p h, ih]

theorem schedule_split (schedule : List Bool) :
    schedule = List.replicate (statements_before_interrupt schedule) false ∨
    ∃ rest, schedule =
      List.replicate (statements_before_interrupt schedule) false ++ true :: rest := by
  induction schedule with
  | nil => left; rfl
  | cons b s ih =>
    cases b
    · rcases ih with h | ⟨rest, h⟩
      · left
        simp only [statements_before_interrupt, List.takeWhile_cons_of_pos, decide_True,
          List.length_cons, List.replicate_succ, List.cons.injEq, true_and]
        exact h
      · right
        refine ⟨rest, ?_⟩
        simp only [statements_before_interrupt, List.takeWhile_cons_of_pos, decide_True,
          List.length_cons, List.replicate_succ, List.cons_append, List.cons.injEq, true_and]
        exact h
    · right
      exact ⟨s, by simp [statements_before_interrupt]⟩

/-- The uninterrupted run of `getch`: all its statements, from the call. -/
theorem Proc.run_six (cfmakeraw : Termios → Termios) (locals : Locals)
    (outcome : ReadOutcome) (A : Termios) :
    Proc.run cfmakeraw outcome (List.replicate 6 false) (Proc.init locals A) =
      { pc := .returned, tty := A,
        locals := { original_termios := A, raw_termios := cfmakeraw locals.raw_termios,
                    result := read outcome locals.result },
        stdout := [] } := by
  simp [Proc.run, Proc.step, Proc.init, tcgetattr, tcsetattr]

theorem Proc.run_many (cfmakeraw : Termios → Termios) (locals : Locals)
    (outcome : ReadOutcome) (A : Termios) (k : Nat) (hk : 6 ≤ k) :
    Proc.run cfmakeraw outcome (List.replicate k false) (Proc.init locals A) =
      Proc.run cfmakeraw outcome (List.replicate 6 false) (Proc.init locals A) := by
  obtain ⟨j, rfl⟩ := Nat.exists_eq_add_of_le hk
  rw [List.replicate_add, Proc.run_append, Proc.run_six]
  exact Proc.run_terminated _ _ _ _ rfl

/-- C1: for every attribute record `A` in force at the call, every value of
the uninitialised locals and every outcome of the read (a byte, end of input,
or a failure such as an interrupted read), `getch` returns with the attributes
`A` in force again. Its statements run from the call to the return are the
uninterrupted run of the process, and at every point of that run the
attributes are `A`, except between the switch to raw mode and the restore
(when the read or the restore is the next statement), where they are the raw
attributes. -/
theorem getch_restores_attributes (cfmakeraw : Termios → Termios) (locals : Locals)
    (outcome : ReadOutcome) (A : Termios) :
    (getch cfmakeraw locals outcome A).2 = A ∧
    (Proc.run cfmakeraw outcome (List.replicate 6 false) (Proc.init locals A)).pc
      = Pc.returned ∧
    (Proc.run cfmakeraw outcome (List.replicate 6 false) (Proc.init locals A)).tty
      = (getch cfmakeraw locals outcome A).2 ∧
    (Proc.run cfmakeraw outcome (List.replicate 6 false) (Proc.init locals A)).locals.result
      = (getch cfmakeraw locals outcome A).1 ∧
    ∀ k : Nat,
      (((Proc.run cfmakeraw outcome (List.replicate k false) (Proc.init locals A)).pc
          = Pc.at_read ∨
        (Proc.run cfmakeraw outcome (List.replicate k false) (Proc.init locals A)).pc
          = Pc.at_restore) ∧
        (Proc.run cfmakeraw outcome (List.replicate k false) (Proc.init locals A)).tty
          = cfmakeraw locals.raw_termios) ∨
      (((Proc.run cfmakeraw outcome (List.replicate k false) (Proc.init locals A)).pc
          ≠ Pc.at_read ∧
        (Proc.run cfmakeraw outcome (List.replicate k false) (Proc.init locals A)).pc
          ≠ Pc.at_restore) ∧
        (Proc.run cfmakeraw outcome (List.replicate k false) (Proc.init locals A)).tty
          = A) := by
  refine ⟨rfl, ?_, ?_, ?_, ?_⟩
  · rw [Proc.run_six]
  · rw [Proc.run_six]; rfl
  · rw [Proc.run_six]; rfl
  · intro k
    by_cases hk : 6 ≤ k
    · rw [Proc.run_many _ _ _ _ k hk, Proc.run_six]
      right
      simp
    · have hk6 : k < 6 := by omega
      interval_cases k <;>
        simp [Proc.run, Proc.step, Proc.init, tcgetattr, tcsetattr]

theorem Proc.run_uninterrupted (cfmakeraw : Termios → Termios) (locals : Locals)
    (outcome : ReadOutcome) (A : Termios) (n : Nat) :
    ((Proc.run cfmakeraw outcome (List.replicate n false) (Proc.init locals A)).pc
        = Pc.returned →
      (Proc.run cfmakeraw outcome (List.replicate n false) (Proc.init locals A)).tty = A) ∧
    ∀ status : Int,
      (Proc.run cfmakeraw outcome (List.replicate n false) (Proc.init locals A)).pc
        ≠ Pc.exited status := by
  by_cases hn : 6 ≤ n
  · rw [Proc.run_many _ _ _ _ n hn, Proc.run_six]
    simp
  · have hn6 : n < 6 := by omega
    interval_cases n <;> simp [Proc.run, Proc.step, Proc.init, tcgetattr, tcsetattr]

theorem Proc.run_interrupted (cfmakeraw : Termios → Termios) (locals : Locals)
    (outcome : ReadOutcome) (A : Termios) (n : Nat) (rest : List Bool) :
    ((Proc.run cfmakeraw outcome (List.replicate n false ++ true :: rest)
        (Proc.init locals A)).pc = Pc.returned →
      (Proc.run cfmakeraw outcome (List.replicate n false ++ true :: rest)
        (Proc.init locals A)).tty = A) ∧
    ∀ status : Int,
      (Proc.run cfmakeraw outcome (List.replicate n false ++ true :: rest)
        (Proc.init locals A)).pc = Pc.exited status →
      (Proc.run cfmakeraw outcome (List.replicate n false ++ true :: rest)
        (Proc.init locals A)).tty =
        if n = 3 ∨ n = 4 then cfmakeraw locals.raw_termios else A := by
  rw [Proc.run_append]
  by_cases hn : 6 ≤ n
  · rw [Proc.run_many _ _ _ _ n hn, Proc.run_six]
    simp [Proc.run_terminated, Proc.terminated]
  · have hn6 : n < 6 := by omega
    interval_cases n <;>
      simp [Proc.run, Proc.step, Proc.init, tcgetattr, tcsetattr, Proc.interrupt,
        reset_terminal_and_exit, Proc.run_terminated, Proc.terminated]

/-- C2, as stated, fails: from the cooked attributes, the interrupt delivered
while the raw read is pending (after the save, `cfmakeraw` and the switch to
raw mode) ends the process through the handler with exit status 0 and with
attributes in force that are not the ones active before raw mode was
entered. -/
theorem interrupt_during_read_leaves_raw_mode :
    (Proc.run cfmakeraw_linux (ReadOutcome.byte 97) [false, false, false]
      (Proc.init zeroed_locals cooked)).pc = Pc.at_read ∧
    (Proc.run cfmakeraw_linux (ReadOutcome.byte 97) [false, false, false, true]
      (Proc.init zeroed_locals cooked)).terminated = true ∧
    (Proc.run cfmakeraw_linux (ReadOutcome.byte 97) [false, false, false, true]
      (Proc.init zeroed_locals cooked)).pc = Pc.exited 0 ∧
    (Proc.run cfmakeraw_linux (ReadOutcome.byte 97) [false, false, false, true]
      (Proc.init zeroed_locals cooked)).tty ≠ cooked := by
  decide

/-- C2, amended: in the runs of `getch` under every schedule of statements
and interrupt deliveries, a state terminated by the return of `getch` has the
attributes `A` that were in force at the call; the handler does not touch the
attributes, so a state terminated by the exit of the handler has the
attributes in force at the delivery: `A` when the interrupt came before the
switch to raw mode or after the restore, and the raw attributes when it came
between them (after 3 or 4 statements: the read or the restore is pending). -/
theorem terminated_state_attributes (cfmakeraw : Termios → Termios) (locals : Locals)
    (outcome : ReadOutcome) (A : Termios) (schedule : List Bool) :
    ((Proc.run cfmakeraw outcome schedule (Proc.init locals A)).pc = Pc.returned →
      (Proc.run cfmakeraw outcome schedule (Proc.init locals A)).tty = A) ∧
    ∀ status : Int,
      (Proc.run cfmakeraw outcome schedule (Proc.init locals A)).pc = Pc.exited status →
      (Proc.run cfmakeraw outcome schedule (Proc.init locals A)).tty =
        if statements_before_interrupt schedule = 3 ∨
            statements_before_interrupt schedule = 4
          then cfmakeraw locals.raw_termios else A := by
  rcases schedule_split schedule with h | ⟨rest, h⟩
  · have key := Proc.run_uninterrupted cfmakeraw locals outcome A
      (statements_before_interrupt schedule)
    rw [← h] at key
    exact ⟨key.1, fun status hs => absurd hs (key.2 status)⟩
  · have key := Proc.run_interrupted cfmakeraw locals outcome A
      (statements_before_interrupt schedule) rest
    rw [← h] at key
    exact key

theorem terminated_state_attributes_witness :
    (Proc.run cfmakeraw_linux (ReadOutcome.byte 97) [false, false, true]
      (Proc.init zeroed_locals cooked)).pc = Pc.exited 0 ∧
    (Proc.run cfmakeraw_linux (ReadOutcome.byte 97) [false, false, true]
      (Proc.init zeroed_locals cooked)).tty =
        if statements_before_interrupt [false, false, true] = 3 ∨
            statements_before_interrupt [false, false, true] = 4
          then cfmakeraw_linux zeroed_locals.raw_termios else cooked :=
  ⟨by decide,
    (terminated_state_attributes cfmakeraw_linux zeroed_locals (ReadOutcome.byte 97) cooked
      [false, false, true]).2 0 (by decide)⟩

/-! ## Interrupt handler and registration -/

theorem Proc.run_to_read (cfmakeraw : Termios → Termios) (locals : Locals)
    (outcome : ReadOutcome) (A : Termios) :
    Proc.run cfmakeraw outcome [false, false, false] (Proc.init locals A) =
      { pc := .at_read, tty := cfmakeraw locals.raw_termios,
        locals := { original_termios := A, raw_termios := cfmakeraw locals.raw_termios,
                    result := locals.result },
        stdout := [] } := by
  simp [Proc.run, Proc.step, Proc.init, tcgetattr, tcsetattr]

/-- C11: for every signal id, `reset_terminal_and_exit` appends to standard
output the default style `ESC[0m`, then the switch to the normal screen buffer
`ESC[?47l` (and the line break of `std::endl`), and ends the process with exit
status 0; the resulting state does not depend on the signal id. When the
interrupt is delivered while the raw read is pending, the process ends in the
state the handler leaves, whatever the schedule does afterwards: the variable
`result` keeps its first value and the final state is the same for every
outcome the read could have had, so no byte is read. -/
theorem reset_terminal_and_exit_emits_and_exits (signal_id : Int) (p : Proc) :
    (reset_terminal_and_exit signal_id p).stdout =
      p.stdout ++ "\x1b[0m".toList ++ "\x1b[?47l".toList ++ "\n".toList ∧
    (reset_terminal_and_exit signal_id p).pc = Pc.exited 0 ∧
    (∀ other_id : Int,
      reset_terminal_and_exit other_id p = reset_terminal_and_exit signal_id p) ∧
    ∀ (cfmakeraw : Termios → Termios) (locals : Locals) (outcome : ReadOutcome)
      (A : Termios) (rest : List Bool),
      (Proc.run cfmakeraw outcome [false, false, false] (Proc.init locals A)).pc
        = Pc.at_read ∧
      Proc.run cfmakeraw outcome ([false, false, false, true] ++ rest) (Proc.init locals A)
        = reset_terminal_and_exit SIGINT
            (Proc.run cfmakeraw outcome [false, false, false] (Proc.init locals A)) ∧
      (Proc.run cfmakeraw outcome ([false, false, false, true] ++ rest)
        (Proc.init locals A)).locals.result = locals.result ∧
      ∀ other : ReadOutcome,
        Proc.run cfmakeraw other ([false, false, false, true] ++ rest) (Proc.init locals A)
          = Proc.run cfmakeraw outcome ([false, false, false, true] ++ rest)
              (Proc.init locals A) := by
  refine ⟨rfl, rfl, fun _ => rfl, ?_⟩
  intro cfmakeraw locals outcome A rest
  have hrun : ∀ o : ReadOutcome,
      Proc.run cfmakeraw o ([false, false, false, true] ++ rest) (Proc.init locals A)
        = reset_terminal_and_exit SIGINT
            { pc := .at_read, tty := cfmakeraw locals.raw_termios,
              locals := { original_termios := A,
                          raw_termios := cfmakeraw locals.raw_termios,
                          result := locals.result },
              stdout := [] } := by
    intro o
    have h4 : ([false, false, false, true] ++ rest : List Bool)
        = [false, false, false] ++ true :: rest := rfl
    rw [h4, Proc.run_append, Proc.run_to_read]
    simp [Proc.run, Proc.interrupt, Proc.run_terminated, Proc.terminated,
      reset_terminal_and_exit]
  refine ⟨?_, ?_, ?_, ?_⟩
  · rw [Proc.run_to_read]
  · rw [hrun outcome, Proc.run_to_read]
  · rw [hrun outcome]; rfl
  · intro other
    rw [hrun other, hrun outcome]

theorem handle_SIGINT_at_SIGINT (d : Dispositions) :
    handle_SIGINT d SIGINT =
      { sa_handler := .fn_reset_terminal_and_exit, sa_mask := [], sa_flags := 0 } := by
  simp [handle_SIGINT, sigaction, sigemptyset]

/-- C12: whatever the signal dispositions are, calling `handle_SIGINT` twice
leaves the same dispositions as calling it once: `SIGINT` is mapped to the
single handler `reset_terminal_and_exit` with an empty mask and no flags. One
delivery of the interrupt after two calls runs that handler once: the process
state is that of one call of `reset_terminal_and_exit`, with one copy of its
output. -/
theorem handle_SIGINT_idempotent (d : Dispositions) (p : Proc) :
    handle_SIGINT (handle_SIGINT d) = handle_SIGINT d ∧
    handle_SIGINT (handle_SIGINT d) SIGINT =
      { sa_handler := .fn_reset_terminal_and_exit, sa_mask := [], sa_flags := 0 } ∧
    deliver (handle_SIGINT (handle_SIGINT d)) SIGINT p =
      some (reset_terminal_and_exit SIGINT p) ∧
    deliver (handle_SIGINT (handle_SIGINT d)) SIGINT p = deliver (handle_SIGINT d) SIGINT p ∧
    (reset_terminal_and_exit SIGINT p).stdout =
      p.stdout ++ "\x1b[0m".toList ++ "\x1b[?47l".toList ++ "\n".toList := by
  have hidem : handle_SIGINT (handle_SIGINT d) = handle_SIGINT d := by
    funext s
    by_cases hs : s = SIGINT <;> simp [handle_SIGINT, sigaction, hs]
  refine ⟨hidem, handle_SIGINT_at_SIGINT _, ?_, ?_, rfl⟩
  · simp only [deliver, handle_SIGINT_at_SIGINT]
  · rw [hidem]

/-! ## Terminal geometry -/

/-- C13, as stated, fails: when the size query fails with `ENOTTY` (no
terminal), `get_term_size` still returns a width and a height to its caller
(here 80 and 24, found in its local record), exactly what it returns when the
query succeeds on a terminal of 80 columns and 24 rows; what is returned is
not a failure. The error number `ENOTTY` of the platform call is in `errno`
at the return. -/
theorem get_term_size_returns_size_on_failure :
    (get_term_size (IoctlOutcome.failed ENOTTY) (Winsize.mk 24 80 0 0) 0).1
      = Term_size.mk 80 24 ∧
    (get_term_size (IoctlOutcome.failed ENOTTY) (Winsize.mk 24 80 0 0) 0).1 =
      (get_term_size (IoctlOutcome.filled (Winsize.mk 24 80 0 0)) (Winsize.mk 0 0 0 0) 0).1 ∧
    (get_term_size (IoctlOutcome.failed ENOTTY) (Winsize.mk 24 80 0 0) 0).2 = ENOTTY := by
  decide

/-- C13, amended: `get_term_size` has no failure result. When the size query
succeeds, it returns the columns and rows the query delivered. When the query
fails with an error number `e` (`ENOTTY` without a terminal), it still returns
a width and a height, and the returned value is one that a successful query
returns as well, so the returned value does not carry the failure; the failure
reaches the caller only through `errno`, which holds `e` at the return
whatever it held at the call. -/
theorem get_term_size_failure_only_in_errno (e : Nat) (size answer : Winsize)
    (errno : Nat) :
    (get_term_size (IoctlOutcome.filled answer) size errno).1 =
      { width := answer.ws_col, height := answer.ws_row } ∧
    (∃ delivered : Winsize,
      (get_term_size (IoctlOutcome.failed e) size errno).1 =
        (get_term_size (IoctlOutcome.filled delivered) size errno).1) ∧
    (get_term_size (IoctlOutcome.failed e) size errno).2 = e ∧
    (get_term_size (IoctlOutcome.failed ENOTTY) size errno).2 = ENOTTY := by
  exact ⟨rfl, ⟨size, rfl⟩, rfl, rfl⟩

/-! ## Bold and underline -/

/-- C14: for every text, `bold_text text false` is exactly `ESC[1m`, the text,
`ESC[22m`, and `underline_text text` is exactly `ESC[4m`, the text, `ESC[24m`:
each wrapper closes with the code of its own attribute (22 for bold, 24 for
underline), which is neither the closing code of the other wrapper nor the
reset of all attributes `DEFAULT_TERM_STYLE` (`ESC[0m`). -/
theorem bold_and_underline_self_closing (text : Str) :
    bold_text text false = "\x1b[1m".toList ++ text ++ "\x1b[22m".toList ∧
    underline_text text = "\x1b[4m".toList ++ text ++ "\x1b[24m".toList ∧
    "\x1b[22m".toList <:+ bold_text text false ∧
    "\x1b[24m".toList <:+ underline_text text ∧
    "\x1b[22m".toList ≠ "\x1b[24m".toList ∧
    "\x1b[22m".toList ≠ DEFAULT_TERM_STYLE ∧
    "\x1b[24m".toList ≠ DEFAULT_TERM_STYLE := by
  have hb : bold_text text false = "\x1b[1m".toList ++ text ++ "\x1b[22m".toList := by
    simp [bold_text]
  have hu : underline_text text = "\x1b[4m".toList ++ text ++ "\x1b[24m".toList := rfl
  refine ⟨hb, hu, ?_, ?_, by decide, by decide, by decide⟩
  · rw [hb]; exact List.suffix_append _ _
  · rw [hu]; exact List.suffix_append _ _

/-! ## Cursor control -/

/-- C15: `set_cursor_pos 5 10` writes `ESC[5;10f` and then a line break: the
bytes written are not exactly the cursor-positioning sequence `ESC[5;10f`, and
for every line and column the last byte written is the line break of the
format string. -/
theorem set_cursor_pos_writes_line_break :
    set_cursor_pos 5 10 = "\x1b[5;10f\n".toList ∧
    set_cursor_pos 5 10 ≠
      "\x1b[".toList ++ to_string 5 ++ ";".toList ++ to_string 10 ++ "f".toList ∧
    ∀ line column : Nat, "\n".toList <:+ set_cursor_pos line column := by
  refine ⟨by decide, by decide, ?_⟩
  intro line column
  refine ⟨"\x1b[".toList ++ printf_i line ++ ";".toList ++ printf_i column ++ "f".toList, ?_⟩
  simp [set_cursor_pos]

/-- C16: for the shift `4294967295 = 2 ^ 32 - 1`, above `2 ^ 31 - 1`, the four
cursor moves write `ESC[-1A`, `ESC[-1B`, `ESC[-1C` and `ESC[-1D`: the signed
conversion `%i` prints `-1`, not the unsigned decimal rendering `4294967295`
of the shift. -/
theorem move_cursor_prints_negative_count :
    move_cursor_up 4294967295 = "\x1b[-1A".toList ∧
    move_cursor_down 4294967295 = "\x1b[-1B".toList ∧
    move_cursor_right 4294967295 = "\x1b[-1C".toList ∧
    move_cursor_left 4294967295 = "\x1b[-1D".toList ∧
    to_string 4294967295 = "4294967295".toList ∧
    move_cursor_up 4294967295 ≠ "\x1b[".toList ++ to_string 4294967295 ++ "A".toList ∧
    move_cursor_down 4294967295 ≠ "\x1b[".toList ++ to_string 4294967295 ++ "B".toList ∧
    move_cursor_right 4294967295 ≠ "\x1b[".toList ++ to_string 4294967295 ++ "C".toList ∧
    move_cursor_left 4294967295 ≠ "\x1b[".toList ++ to_string 4294967295 ++ "D".toList := by
  decide

/-! ## Centering with an explicit visual width -/

theorem center_text_loop_eq_block_loop (console_size : Term_size) (visual_width : Nat)
    (hv : visual_width ≠ 0) (text : Str) : ∀ state : Str × Str,
    center_text_loop console_size visual_width text state =
      center_text_block_loop
        ((console_size.width / 2 + 2 ^ 32 - visual_width / 2) % 2 ^ 32) text state := by
  induction text with
  | nil => intro state; rfl
  | cons c t ih =>
    rintro ⟨result, constructed_line⟩
    by_cases hc : c = '\n'
    · simp only [center_text_loop, center_text_block_loop, hc, if_true, ih]
      rw [center_line_eq, if_pos hv]
    · simp only [center_text_loop, center_text_block_loop, hc, if_false, ih]

/-- C17: for every text, every terminal size and every nonzero visual width
`v`, `center_text text v` and `center_text_block text v` are the same string;
each line of the text that a line break follows is emitted behind a line break
and the same number of spaces, `floor(W/2) - floor(v/2)` taken modulo `2 ^ 32`
(the `unsigned` subtraction), whatever the length of the line. -/
theorem center_text_eq_block_of_visual_width (console_size : Term_size) (text : Str)
    (visual_width : Nat) (hv : visual_width ≠ 0) :
    center_text console_size text visual_width =
      center_text_block console_size text visual_width ∧
    ∀ (lines : List Str) (rest : Str), text = join_lines lines rest →
      (∀ l ∈ lines, '\n' ∉ l) → '\n' ∉ rest →
      center_text console_size text visual_width =
        (lines.map (fun l => '\n' :: (List.replicate
          ((console_size.width / 2 + 2 ^ 32 - visual_width / 2) % 2 ^ 32) ' '
            ++ l))).flatten := by
  have heq : center_text console_size text visual_width =
      (center_text_block_loop
        ((console_size.width / 2 + 2 ^ 32 - visual_width / 2) % 2 ^ 32) text ([], [])).1 := by
    simp only [center_text, center_text_loop_eq_block_loop console_size visual_width hv]
  refine ⟨?_, ?_⟩
  · rw [heq]
    simp only [center_text_block, if_pos hv]
  · intro lines rest ht hlines hrest
    rw [heq, ht, center_text_block_loop_lines _ lines rest hlines hrest]
    simp

theorem center_text_eq_block_of_visual_width_witness :
    (4 : Nat) ≠ 0 ∧
    center_text (Term_size.mk 20 24) "a\nbbbbbb\n".toList 4 =
      center_text_block (Term_size.mk 20 24) "a\nbbbbbb\n".toList 4 :=
  ⟨by decide,
    (center_text_eq_block_of_visual_width (Term_size.mk 20 24) "a\nbbbbbb\n".toList 4
      (by decide)).1⟩

/-- C18: for every line, visual width and terminal size, also when the
`unsigned` subtraction wraps around, `center_line` returns a run of spaces
followed by the line unchanged: the number of spaces is the offset, the length
of the result is the offset plus the length of the line, the result ends with
the line, and everything before the line is spaces. -/
theorem center_line_keeps_line (console_size : Term_size) (line : Str)
    (visual_width : Nat) :
    center_line console_size line visual_width =
      List.replicate
        ((console_size.width / 2 + 2 ^ 32 -
          (if visual_width ≠ 0 then visual_width / 2 else (line.length / 2) % 2 ^ 32))
            % 2 ^ 32) ' ' ++ line ∧
    (center_line console_size line visual_width).length =
      (console_size.width / 2 + 2 ^ 32 -
        (if visual_width ≠ 0 then visual_width / 2 else (line.length / 2) % 2 ^ 32))
          % 2 ^ 32 + line.length ∧
    line <:+ center_line console_size line visual_width ∧
    ∃ spaces : Str, center_line console_size line visual_width = spaces ++ line ∧
      spaces.all (· = ' ') = true := by
  have h := center_line_eq console_size line visual_width
  refine ⟨h, ?_, ?_, ?_⟩
  · rw [h, List.length_append, List.length_replicate]
  · rw [h]; exact List.suffix_append _ _
  · refine ⟨_, h, ?_⟩
    simp [List.all_eq_true]

end termkit
